import Mathlib

/-!
Verification development for the sphere raytracer in src/main.cpp.

The C++ floats are modelled as real numbers, the fixed-size arrays
(four spheres, one light) as lists scanned in their element order, and
the loops of the tracing routine as structural recursion and folds.
Definitions follow the source line by line; a few definitions that are
explicitly marked as modelled from the specification rather than from
the source provide the comparison side for refinement claims.
-/

/-- Three-component vector, from the source struct vec3 (lines 27-46). -/
@[ext]
structure vec3 where
  x : ℝ
  y : ℝ
  z : ℝ

/-- Componentwise addition, vec3 operator+. -/
noncomputable instance : Add vec3 :=
  ⟨fun a b => ⟨a.x + b.x, a.y + b.y, a.z + b.z⟩⟩

/-- Componentwise negation, vec3 unary operator-. -/
noncomputable instance : Neg vec3 :=
  ⟨fun a => ⟨-a.x, -a.y, -a.z⟩⟩

/-- Componentwise subtraction, vec3 binary operator-. -/
noncomputable instance : Sub vec3 :=
  ⟨fun a b => ⟨a.x - b.x, a.y - b.y, a.z - b.z⟩⟩

/-- Componentwise (Hadamard) product, vec3 operator* taking a vec3. -/
noncomputable instance : Mul vec3 :=
  ⟨fun a b => ⟨a.x * b.x, a.y * b.y, a.z * b.z⟩⟩

/-- Scalar scaling, vec3 operator* taking a float. -/
noncomputable def vec3.smul (v : vec3) (f : ℝ) : vec3 :=
  ⟨v.x * f, v.y * f, v.z * f⟩

/-- The broadcast constructor vec3(float n). -/
def vec3.splat (n : ℝ) : vec3 :=
  ⟨n, n, n⟩

/-- The zero vector, the default constructor vec3(). -/
instance : Zero vec3 :=
  ⟨⟨0, 0, 0⟩⟩

/-- Vector addition is a commutative monoid, so that finite sums of
per-light contributions can be written with List.sum. -/
noncomputable instance : AddCommMonoid vec3 where
  add_assoc a b c := by ext <;> exact add_assoc ..
  zero_add a := by ext <;> exact zero_add ..
  add_zero a := by ext <;> exact add_zero ..
  add_comm a b := by ext <;> exact add_comm ..
  nsmul := nsmulRec

/-- Dot product, vec3 dot (line 42). -/
noncomputable def vec3.dot (a b : vec3) : ℝ :=
  a.x * b.x + a.y * b.y + a.z * b.z

/-- Euclidean norm, vec3 magnitude (line 44). -/
noncomputable def vec3.magnitude (v : vec3) : ℝ :=
  Real.sqrt (v.x * v.x + v.y * v.y + v.z * v.z)

/-- Division of every component by the magnitude, vec3 normalize
(line 45).  The source performs no zero check; real-number division by
zero yields zero here where the C++ floats would yield NaN. -/
noncomputable def vec3.normalize (v : vec3) : vec3 :=
  ⟨v.x / v.magnitude, v.y / v.magnitude, v.z / v.magnitude⟩

/-- Ray with origin and direction (lines 48-54). -/
structure Ray where
  orig : vec3
  dir : vec3

/-- Point light with position, color and intensity (lines 56-63). -/
structure Light where
  position : vec3
  color : vec3
  intensity : ℝ

/-- The material tag enumeration (lines 19-25). -/
inductive Material where
  | Diffuse
  | Specular
  | Fresnel
  | Reflect
  | ReflectAndRefract
deriving DecidableEq

/-- Sphere with center, radius, albedo color and material (lines 79-111). -/
structure Sphere where
  center : vec3
  radius : ℝ
  color : vec3
  material : Material

/-- The INF constant (line 11), the initial nearest distance of trace. -/
def INF : ℝ :=
  1000000

/-- Geometric ray-sphere intersection, Sphere intersect (lines 94-110):
reject when the center projects behind the origin, reject when the
squared closest-approach distance exceeds the squared radius, otherwise
return both quadratic roots. -/
noncomputable def Sphere.intersect (s : Sphere) (ray : Ray) : Option (ℝ × ℝ) :=
  let L : vec3 := s.center - ray.orig
  let tca : ℝ := vec3.dot L ray.dir
  if tca < 0 then none
  else
    let d2 : ℝ := vec3.dot L L - tca * tca
    if d2 > s.radius * s.radius then none
    else
      let thc : ℝ := Real.sqrt (s.radius * s.radius - d2)
      some (tca - thc, tca + thc)

/-- The surviving ray parameter of a sphere for a given ray: the near
root, with the far root substituted when the near root is negative
(lines 119-121 of trace). -/
noncomputable def surv (ray : Ray) (s : Sphere) : Option ℝ :=
  match s.intersect ray with
  | none => none
  | some (t0, t1) => some (if t0 < 0 then t1 else t0)

/-- The nearest-hit scan loop of trace (lines 115-127), recursing over
the sphere list while carrying the current nearest distance and the
current winning sphere.  A candidate replaces the accumulator only when
its surviving parameter is strictly smaller. -/
noncomputable def resolveAux (ray : Ray) : List Sphere → ℝ → Option Sphere → ℝ × Option Sphere
  | [], tnear, sph => (tnear, sph)
  | s :: rest, tnear, sph =>
    match surv ray s with
    | none => resolveAux ray rest tnear sph
    | some tn =>
      if tn < tnear then resolveAux ray rest tn (some s)
      else resolveAux ray rest tnear sph

/-- The scene resolution of trace: scan all spheres starting from the
INF sentinel distance and no winning sphere. -/
noncomputable def scanSpheres (ray : Ray) (spheres : List Sphere) : ℝ × Option Sphere :=
  resolveAux ray spheres INF none

/-- The point of intersection, line 135 of trace. -/
noncomputable def hitPoint (ray : Ray) (t : ℝ) : vec3 :=
  ray.orig + ray.dir.smul t

/-- The surface normal at the hit, normalized and flipped to face the
incoming ray when the ray starts inside the sphere (lines 136-144). -/
noncomputable def hitNormal (ray : Ray) (s : Sphere) (t : ℝ) : vec3 :=
  let n : vec3 := vec3.normalize (hitPoint ray t - s.center)
  if vec3.dot ray.dir n > 0 then -n else n

/-- The body of the per-light loop of the Diffuse branch of trace
(lines 150-164): normalize the direction to the light, cast the shadow
ray from the hit point offset by the surface normal, zero the
transmission when any sphere intersects the shadow ray, and form the
product color * transmission * max(0, N.L) * light color. -/
noncomputable def lightTerm (spheres : List Sphere) (sphere : Sphere)
    (pointHit normalHit : vec3) (light : Light) : vec3 :=
  let lightDirection : vec3 := vec3.normalize (light.position - pointHit)
  let shadowRay : Ray := ⟨pointHit + normalHit, lightDirection⟩
  let transmission : vec3 :=
    if spheres.any (fun sj => (sj.intersect shadowRay).isSome) then vec3.splat 0
    else vec3.splat 1
  ((sphere.color * transmission).smul (max 0 (vec3.dot normalHit lightDirection))) * light.color

/-- The tracing routine (lines 113-172): resolve the nearest hit,
return the background when there is none, accumulate the per-light
terms when the winning sphere is Diffuse, and return black for every
other material tag.  The depth argument is accepted and never used,
exactly as in the source. -/
noncomputable def trace (ray : Ray) (spheres : List Sphere) (lights : List Light)
    (background : vec3) (depth : ℤ) : vec3 :=
  match scanSpheres ray spheres with
  | (_, none) => background
  | (tnear, some sphere) =>
    match sphere.material with
    | Material.Diffuse =>
      lights.foldl
        (fun acc l => acc + lightTerm spheres sphere (hitPoint ray tnear) (hitNormal ray sphere tnear) l)
        (vec3.splat 0)
    | _ => vec3.splat 0

/-- Truncation toward zero, the C++ conversion from a floating value to
int used in save (lines 184-186). -/
noncomputable def truncToInt (r : ℝ) : ℤ :=
  if 0 ≤ r then ⌊r⌋ else ⌈r⌉

/-- The channel encoding of save (lines 184-186): scale by 255, clamp
above at 255, convert to int by truncation toward zero.  There is no
lower clamp and no rounding in the source. -/
noncomputable def encodeChannel (c : ℝ) : ℤ :=
  truncToInt (min (c * 255) 255)

/-- Modelled from the spec: the channel encoding demanded by the
specification, clamp(round(channel * 255), 0, 255). -/
noncomputable def specEncode (c : ℝ) : ℤ :=
  max 0 (min 255 (round (c * 255)))

/-- Modelled from the spec: the per-light shading contribution formula
of section 4.4 including the intensity multiplier,
albedo * max(0, N.L) * light.color * light.intensity. -/
noncomputable def specLightContribution (albedo normal lightDir : vec3) (light : Light) : vec3 :=
  ((albedo.smul (max 0 (vec3.dot normal lightDir))) * light.color).smul light.intensity

/-- Modelled from the spec: the error taxonomy of section 7.  Only the
degenerate-geometry case matters for the claims. -/
inductive GeomError where
  | DegenerateGeometry
deriving DecidableEq

/-- Modelled from the spec: the checked normalization of sections 4.1
and 7, which detects a zero magnitude and reports DegenerateGeometry
instead of dividing. -/
noncomputable def normalizeChecked (v : vec3) : Except GeomError vec3 :=
  if v.magnitude = 0 then Except.error GeomError.DegenerateGeometry
  else Except.ok ⟨v.x / v.magnitude, v.y / v.magnitude, v.z / v.magnitude⟩

/-- A primary ray from the origin straight down the negative principal
axis, used as concrete test input. -/
noncomputable def cray : Ray :=
  ⟨vec3.splat 0, ⟨0, 0, -1⟩⟩

/-- A concrete diffuse sphere straight ahead of cray. -/
noncomputable def oneSphere : Sphere :=
  ⟨⟨0, 0, -5⟩, 1, ⟨1, 1/2, 1/4⟩, Material.Diffuse⟩

/-- The same geometry with a non-Diffuse material tag. -/
noncomputable def specSphere : Sphere :=
  ⟨⟨0, 0, -5⟩, 1, ⟨1, 1, 1⟩, Material.Specular⟩

/-- A sphere behind the camera relative to the shadow rays of the
concrete scene, lying between the hit point and light50. -/
noncomputable def blocker : Sphere :=
  ⟨⟨0, 0, 10⟩, 1, ⟨1, 1, 1⟩, Material.Diffuse⟩

/-- A sphere lying entirely beyond light50 along the shadow ray. -/
noncomputable def farBlocker : Sphere :=
  ⟨⟨0, 0, 100⟩, 1, ⟨1, 1, 1⟩, Material.Diffuse⟩

/-- A diffuse sphere two million units ahead, past the INF sentinel. -/
noncomputable def farSphere : Sphere :=
  ⟨⟨0, 0, -2000000⟩, 1, ⟨1, 1, 1⟩, Material.Diffuse⟩

/-- A white light at the origin with unit intensity. -/
noncomputable def light0 : Light :=
  ⟨⟨0, 0, 0⟩, ⟨1, 1, 1⟩, 1⟩

/-- The same light with its intensity field doubled. -/
noncomputable def light2x : Light :=
  ⟨⟨0, 0, 0⟩, ⟨1, 1, 1⟩, 2⟩

/-- A white light on the positive principal axis. -/
noncomputable def light50 : Light :=
  ⟨⟨0, 0, 50⟩, ⟨1, 1, 1⟩, 1⟩

/-- A non-black background color, to tell background results apart from
shaded black. -/
noncomputable def bg7 : vec3 :=
  ⟨7, 7, 7⟩

/-! ### Componentwise evaluation lemmas for the vector operations -/

@[simp] theorem vec3.add_x (a b : vec3) : (a + b).x = a.x + b.x := rfl

@[simp] theorem vec3.add_y (a b : vec3) : (a + b).y = a.y + b.y := rfl

@[simp] theorem vec3.add_z (a b : vec3) : (a + b).z = a.z + b.z := rfl

@[simp] theorem vec3.neg_x (a : vec3) : (-a).x = -a.x := rfl

@[simp] theorem vec3.neg_y (a : vec3) : (-a).y = -a.y := rfl

@[simp] theorem vec3.neg_z (a : vec3) : (-a).z = -a.z := rfl

@[simp] theorem vec3.sub_x (a b : vec3) : (a - b).x = a.x - b.x := rfl

@[simp] theorem vec3.sub_y (a b : vec3) : (a - b).y = a.y - b.y := rfl

@[simp] theorem vec3.sub_z (a b : vec3) : (a - b).z = a.z - b.z := rfl

@[simp] theorem vec3.mul_x (a b : vec3) : (a * b).x = a.x * b.x := rfl

@[simp] theorem vec3.mul_y (a b : vec3) : (a * b).y = a.y * b.y := rfl

@[simp] theorem vec3.mul_z (a b : vec3) : (a * b).z = a.z * b.z := rfl

@[simp] theorem vec3.smul_x (a : vec3) (f : ℝ) : (a.smul f).x = a.x * f := rfl

@[simp] theorem vec3.smul_y (a : vec3) (f : ℝ) : (a.smul f).y = a.y * f := rfl

@[simp] theorem vec3.smul_z (a : vec3) (f : ℝ) : (a.smul f).z = a.z * f := rfl

@[simp] theorem vec3.splat_x (n : ℝ) : (vec3.splat n).x = n := rfl

@[simp] theorem vec3.splat_y (n : ℝ) : (vec3.splat n).y = n := rfl

@[simp] theorem vec3.splat_z (n : ℝ) : (vec3.splat n).z = n := rfl

@[simp] theorem vec3.zero_x : (0 : vec3).x = 0 := rfl

@[simp] theorem vec3.zero_y : (0 : vec3).y = 0 := rfl

@[simp] theorem vec3.zero_z : (0 : vec3).z = 0 := rfl

theorem vec3.splat_zero : vec3.splat 0 = 0 := rfl

/-! ### Square-root and normalization evaluation helpers -/

/-- Evaluate a real square root from an exhibited nonnegative root. -/
theorem sqrt_eval {a m : ℝ} (hm : 0 ≤ m) (h : a = m * m) : Real.sqrt a = m := by
  rw [h]
  exact Real.sqrt_mul_self hm

/-- Evaluate a magnitude from an exhibited nonnegative root of the sum
of squares. -/
theorem magnitude_eval {v : vec3} {m : ℝ} (hm : 0 ≤ m)
    (h : v.x * v.x + v.y * v.y + v.z * v.z = m * m) : v.magnitude = m := by
  unfold vec3.magnitude
  exact sqrt_eval hm h

/-- Evaluate a normalization from an evaluated magnitude. -/
theorem normalize_eval {v : vec3} {m : ℝ} (h : v.magnitude = m) :
    v.normalize = ⟨v.x / m, v.y / m, v.z / m⟩ := by
  unfold vec3.normalize
  rw [h]

/-! ### Branch lemmas for the intersector -/

/-- The intersector rejects a sphere whose center projects behind the
ray origin. -/
theorem Sphere.intersect_of_behind {s : Sphere} {ray : Ray}
    (h : vec3.dot (s.center - ray.orig) ray.dir < 0) : s.intersect ray = none := by
  simp only [Sphere.intersect]
  rw [if_pos h]

/-- The intersector rejects a sphere whose squared closest-approach
distance exceeds the squared radius. -/
theorem Sphere.intersect_of_far {s : Sphere} {ray : Ray}
    (h : s.radius * s.radius <
      vec3.dot (s.center - ray.orig) (s.center - ray.orig) -
        vec3.dot (s.center - ray.orig) ray.dir * vec3.dot (s.center - ray.orig) ray.dir) :
    s.intersect ray = none := by
  simp only [Sphere.intersect]
  by_cases h1 : vec3.dot (s.center - ray.orig) ray.dir < 0
  · rw [if_pos h1]
  · rw [if_neg h1, if_pos h]

/-- In the remaining case the intersector returns both quadratic
roots. -/
theorem Sphere.intersect_of_hit {s : Sphere} {ray : Ray}
    (h1 : 0 ≤ vec3.dot (s.center - ray.orig) ray.dir)
    (h2 : vec3.dot (s.center - ray.orig) (s.center - ray.orig) -
        vec3.dot (s.center - ray.orig) ray.dir * vec3.dot (s.center - ray.orig) ray.dir ≤
        s.radius * s.radius) :
    s.intersect ray =
      some (vec3.dot (s.center - ray.orig) ray.dir -
              Real.sqrt (s.radius * s.radius -
                (vec3.dot (s.center - ray.orig) (s.center - ray.orig) -
                  vec3.dot (s.center - ray.orig) ray.dir * vec3.dot (s.center - ray.orig) ray.dir)),
            vec3.dot (s.center - ray.orig) ray.dir +
              Real.sqrt (s.radius * s.radius -
                (vec3.dot (s.center - ray.orig) (s.center - ray.orig) -
                  vec3.dot (s.center - ray.orig) ray.dir * vec3.dot (s.center - ray.orig) ray.dir))) := by
  simp only [Sphere.intersect]
  rw [if_neg (not_lt.mpr h1), if_neg (not_lt.mpr h2)]

/-- Inversion for a reported hit: the projection was nonnegative, the
reported roots are the quadratic roots, the far root is nonnegative and
at least the near root. -/
theorem Sphere.intersect_some {s : Sphere} {ray : Ray} {t0 t1 : ℝ}
    (h : s.intersect ray = some (t0, t1)) :
    0 ≤ vec3.dot (s.center - ray.orig) ray.dir ∧ t0 ≤ t1 ∧ 0 ≤ t1 := by
  simp only [Sphere.intersect] at h
  by_cases h1 : vec3.dot (s.center - ray.orig) ray.dir < 0
  · rw [if_pos h1] at h
    exact absurd h (by simp)
  · rw [if_neg h1] at h
    by_cases h2 : vec3.dot (s.center - ray.orig) (s.center - ray.orig) -
        vec3.dot (s.center - ray.orig) ray.dir * vec3.dot (s.center - ray.orig) ray.dir >
        s.radius * s.radius
    · rw [if_pos h2] at h
      exact absurd h (by simp)
    · rw [if_neg h2] at h
      rw [Option.some_inj, Prod.mk.injEq] at h
      obtain ⟨h0, h1'⟩ := h
      have hs : 0 ≤ Real.sqrt (s.radius * s.radius -
          (vec3.dot (s.center - ray.orig) (s.center - ray.orig) -
            vec3.dot (s.center - ray.orig) ray.dir * vec3.dot (s.center - ray.orig) ray.dir)) :=
        Real.sqrt_nonneg _
      have hge : 0 ≤ vec3.dot (s.center - ray.orig) ray.dir := not_lt.mp h1
      refine ⟨hge, ?_, ?_⟩
      · rw [← h0, ← h1']
        linarith
      · rw [← h1']
        linarith

/-! ### Lemmas about the surviving parameter -/

theorem surv_of_none {ray : Ray} {s : Sphere} (h : s.intersect ray = none) :
    surv ray s = none := by
  simp [surv, h]

theorem surv_of_some {ray : Ray} {s : Sphere} {t0 t1 : ℝ} (h : s.intersect ray = some (t0, t1)) :
    surv ray s = some (if t0 < 0 then t1 else t0) := by
  simp [surv, h]

/-- Every surviving parameter is nonnegative: a nonnegative near root
survives as itself, a negative one is replaced by the far root, which
is always nonnegative for a reported hit. -/
theorem surv_nonneg {ray : Ray} {s : Sphere} {t : ℝ} (h : surv ray s = some t) : 0 ≤ t := by
  unfold surv at h
  rcases hi : s.intersect ray with _ | ⟨t0, t1⟩
  · rw [hi] at h
    exact absurd h (by simp)
  · rw [hi] at h
    obtain ⟨-, -, h1⟩ := Sphere.intersect_some hi
    simp only [Option.some_inj] at h
    by_cases h0 : t0 < 0
    · rw [if_pos h0] at h
      exact h ▸ h1
    · rw [if_neg h0] at h
      exact h ▸ not_lt.mp h0

/-! ### Step lemmas for the nearest-hit scan -/

theorem resolveAux_nil (ray : Ray) (tnear : ℝ) (sph : Option Sphere) :
    resolveAux ray [] tnear sph = (tnear, sph) := rfl

theorem resolveAux_cons_none {ray : Ray} {s : Sphere} (rest : List Sphere) (tnear : ℝ)
    (sph : Option Sphere) (hs : surv ray s = none) :
    resolveAux ray (s :: rest) tnear sph = resolveAux ray rest tnear sph := by
  simp only [resolveAux, hs]

theorem resolveAux_cons_lt {ray : Ray} {s : Sphere} {tn tnear : ℝ} (rest : List Sphere)
    (sph : Option Sphere) (hs : surv ray s = some tn) (h : tn < tnear) :
    resolveAux ray (s :: rest) tnear sph = resolveAux ray rest tn (some s) := by
  simp only [resolveAux, hs]
  rw [if_pos h]

theorem resolveAux_cons_ge {ray : Ray} {s : Sphere} {tn tnear : ℝ} (rest : List Sphere)
    (sph : Option Sphere) (hs : surv ray s = some tn) (h : ¬ tn < tnear) :
    resolveAux ray (s :: rest) tnear sph = resolveAux ray rest tnear sph := by
  simp only [resolveAux, hs]
  rw [if_neg h]

/-! ### Folding the per-light accumulation into a sum -/

theorem foldl_add_sum {α : Type} (f : α → vec3) (l : List α) :
    ∀ a : vec3, l.foldl (fun acc x => acc + f x) a = a + (l.map f).sum := by
  induction l with
  | nil => intro a; simp
  | cons x l ih =>
    intro a
    simp only [List.foldl_cons, List.map_cons, List.sum_cons]
    rw [ih (a + f x), add_assoc]

/-! ### Branch lemmas for the tracing routine -/

/-- When no sphere wins the scan, trace returns the background. -/
theorem trace_of_none {ray : Ray} {spheres : List Sphere} (lights : List Light)
    (bg : vec3) (d : ℤ) {t : ℝ} (h : scanSpheres ray spheres = (t, none)) :
    trace ray spheres lights bg d = bg := by
  unfold trace
  rw [h]

/-- When a Diffuse sphere wins the scan, trace is the sum of the
per-light terms. -/
theorem trace_of_diffuse {ray : Ray} {spheres : List Sphere} {t : ℝ} {sphere : Sphere}
    (lights : List Light) (bg : vec3) (d : ℤ)
    (h : scanSpheres ray spheres = (t, some sphere)) (hm : sphere.material = Material.Diffuse) :
    trace ray spheres lights bg d =
      (lights.map (lightTerm spheres sphere (hitPoint ray t) (hitNormal ray sphere t))).sum := by
  unfold trace
  rw [h]
  show (match sphere.material with
    | Material.Diffuse =>
      lights.foldl
        (fun acc l => acc + lightTerm spheres sphere (hitPoint ray t) (hitNormal ray sphere t) l)
        (vec3.splat 0)
    | _ => vec3.splat 0) = _
  rw [hm]
  show lights.foldl
      (fun acc l => acc + lightTerm spheres sphere (hitPoint ray t) (hitNormal ray sphere t) l)
      (vec3.splat 0) = _
  rw [foldl_add_sum, vec3.splat_zero, zero_add]

/-- When a sphere with any other material tag wins the scan, trace
returns black. -/
theorem trace_of_other {ray : Ray} {spheres : List Sphere} {t : ℝ} {sphere : Sphere}
    (lights : List Light) (bg : vec3) (d : ℤ)
    (h : scanSpheres ray spheres = (t, some sphere)) (hm : sphere.material ≠ Material.Diffuse) :
    trace ray spheres lights bg d = vec3.splat 0 := by
  unfold trace
  rw [h]
  show (match sphere.material with
    | Material.Diffuse =>
      lights.foldl
        (fun acc l => acc + lightTerm spheres sphere (hitPoint ray t) (hitNormal ray sphere t) l)
        (vec3.splat 0)
    | _ => vec3.splat 0) = _
  rcases hmat : sphere.material
  · exact absurd hmat hm
  all_goals rfl

/-! ### Branch lemmas for the per-light term -/

/-- When some sphere intersects the shadow ray, the transmission is
zeroed and the whole per-light term vanishes. -/
theorem lightTerm_occluded {spheres : List Sphere} {sphere : Sphere}
    {pointHit normalHit : vec3} {light : Light}
    (h : ∃ sj ∈ spheres,
      (sj.intersect ⟨pointHit + normalHit, vec3.normalize (light.position - pointHit)⟩).isSome = true) :
    lightTerm spheres sphere pointHit normalHit light = vec3.splat 0 := by
  have hany : (spheres.any fun sj =>
      (sj.intersect ⟨pointHit + normalHit, vec3.normalize (light.position - pointHit)⟩).isSome) = true :=
    List.any_eq_true.mpr (by simpa using h)
  simp only [lightTerm]
  rw [if_pos hany]
  ext <;> simp

/-- When no sphere intersects the shadow ray, the per-light term is the
albedo scaled by the clamped cosine, Hadamard-multiplied by the light
color.  The light intensity does not appear. -/
theorem lightTerm_unoccluded {spheres : List Sphere} {sphere : Sphere}
    {pointHit normalHit : vec3} {light : Light}
    (h : ¬ ∃ sj ∈ spheres,
      (sj.intersect ⟨pointHit + normalHit, vec3.normalize (light.position - pointHit)⟩).isSome = true) :
    lightTerm spheres sphere pointHit normalHit light =
      (sphere.color.smul
        (max 0 (vec3.dot normalHit (vec3.normalize (light.position - pointHit))))) * light.color := by
  have hany : ¬ ((spheres.any fun sj =>
      (sj.intersect ⟨pointHit + normalHit, vec3.normalize (light.position - pointHit)⟩).isSome) = true) := by
    rw [List.any_eq_true]
    simpa using h
  simp only [lightTerm]
  rw [if_neg hany]
  ext <;> simp

/-! ### Characterization of the nearest-hit scan -/

/-- Full characterization of the scan loop with an arbitrary
accumulator: either no sphere beats the incoming distance and the
accumulator is returned unchanged, or the result is the first sphere
attaining the strict minimum of the surviving parameters below the
incoming distance. -/
theorem resolveAux_spec (ray : Ray) (l : List Sphere) :
    ∀ (tnear : ℝ) (sph : Option Sphere),
      (resolveAux ray l tnear sph = (tnear, sph) ∧
        ∀ (i : ℕ) (sj : Sphere) (t' : ℝ), l[i]? = some sj → surv ray sj = some t' → tnear ≤ t')
      ∨ (∃ (i : ℕ) (w : Sphere), l[i]? = some w ∧ (resolveAux ray l tnear sph).2 = some w ∧
          surv ray w = some (resolveAux ray l tnear sph).1 ∧
          (resolveAux ray l tnear sph).1 < tnear ∧
          ∀ (j : ℕ) (sj : Sphere) (t' : ℝ), l[j]? = some sj → surv ray sj = some t' →
            (resolveAux ray l tnear sph).1 ≤ t' ∧ (j < i → (resolveAux ray l tnear sph).1 < t')) := by
  induction l with
  | nil =>
    intro tnear sph
    left
    refine ⟨rfl, ?_⟩
    intro i sj t' hget hsv
    simp at hget
  | cons s rest ih =>
    intro tnear sph
    rcases hs : surv ray s with _ | tn
    · rw [resolveAux_cons_none rest tnear sph hs]
      rcases ih tnear sph with ⟨heq, hbound⟩ | ⟨i, w, hiw, hsome, hsv, hlt, hall⟩
      · left
        refine ⟨heq, ?_⟩
        intro i sj t' hget hsv
        cases i with
        | zero =>
          simp only [List.getElem?_cons_zero, Option.some_inj] at hget
          subst hget
          rw [hs] at hsv
          cases hsv
        | succ n =>
          exact hbound n sj t' (by simpa using hget) hsv
      · right
        refine ⟨i + 1, w, by simpa using hiw, hsome, hsv, hlt, ?_⟩
        intro j sj t' hget hsv'
        cases j with
        | zero =>
          simp only [List.getElem?_cons_zero, Option.some_inj] at hget
          subst hget
          rw [hs] at hsv'
          cases hsv'
        | succ n =>
          have hn := hall n sj t' (by simpa using hget) hsv'
          exact ⟨hn.1, fun hj => hn.2 (by omega)⟩
    · by_cases hcmp : tn < tnear
      · rw [resolveAux_cons_lt rest sph hs hcmp]
        rcases ih tn (some s) with ⟨heq, hbound⟩ | ⟨i, w, hiw, hsome, hsv, hlt, hall⟩
        · right
          refine ⟨0, s, by simp, ?_, ?_, ?_, ?_⟩
          · rw [heq]
          · rw [heq]
            exact hs
          · rw [heq]
            exact hcmp
          · intro j sj t' hget hsv'
            rw [heq]
            cases j with
            | zero =>
              simp only [List.getElem?_cons_zero, Option.some_inj] at hget
              subst hget
              rw [hs] at hsv'
              injection hsv' with h''
              subst h''
              exact ⟨le_refl _, fun hj => absurd hj (by omega)⟩
            | succ n =>
              have hn := hbound n sj t' (by simpa using hget) hsv'
              exact ⟨hn, fun hj => absurd hj (by omega)⟩
        · right
          refine ⟨i + 1, w, by simpa using hiw, hsome, hsv, lt_trans hlt hcmp, ?_⟩
          intro j sj t' hget hsv'
          cases j with
          | zero =>
            simp only [List.getElem?_cons_zero, Option.some_inj] at hget
            subst hget
            rw [hs] at hsv'
            injection hsv' with h''
            subst h''
            exact ⟨le_of_lt hlt, fun hj => hlt⟩
          | succ n =>
            have hn := hall n sj t' (by simpa using hget) hsv'
            exact ⟨hn.1, fun hj => hn.2 (by omega)⟩
      · rw [resolveAux_cons_ge rest sph hs hcmp]
        rcases ih tnear sph with ⟨heq, hbound⟩ | ⟨i, w, hiw, hsome, hsv, hlt, hall⟩
        · left
          refine ⟨heq, ?_⟩
          intro j sj t' hget hsv'
          cases j with
          | zero =>
            simp only [List.getElem?_cons_zero, Option.some_inj] at hget
            subst hget
            rw [hs] at hsv'
            injection hsv' with h''
            subst h''
            exact not_lt.mp hcmp
          | succ n =>
            exact hbound n sj t' (by simpa using hget) hsv'
        · right
          refine ⟨i + 1, w, by simpa using hiw, hsome, hsv, hlt, ?_⟩
          intro j sj t' hget hsv'
          cases j with
          | zero =>
            simp only [List.getElem?_cons_zero, Option.some_inj] at hget
            subst hget
            rw [hs] at hsv'
            injection hsv' with h''
            subst h''
            have hstrict : (resolveAux ray rest tnear sph).1 < tn :=
              lt_of_lt_of_le hlt (not_lt.mp hcmp)
            exact ⟨le_of_lt hstrict, fun hj => hstrict⟩
          | succ n =>
            have hn := hall n sj t' (by simpa using hget) hsv'
            exact ⟨hn.1, fun hj => hn.2 (by omega)⟩

/-! ### Constructor-level evaluation lemmas for concrete vectors -/

@[simp] theorem vec3.mk_add_mk (a b c d e f : ℝ) :
    (⟨a, b, c⟩ : vec3) + ⟨d, e, f⟩ = ⟨a + d, b + e, c + f⟩ := rfl

@[simp] theorem vec3.mk_sub_mk (a b c d e f : ℝ) :
    (⟨a, b, c⟩ : vec3) - ⟨d, e, f⟩ = ⟨a - d, b - e, c - f⟩ := rfl

@[simp] theorem vec3.neg_mk (a b c : ℝ) :
    -(⟨a, b, c⟩ : vec3) = ⟨-a, -b, -c⟩ := rfl

@[simp] theorem vec3.mk_mul_mk (a b c d e f : ℝ) :
    (⟨a, b, c⟩ : vec3) * ⟨d, e, f⟩ = ⟨a * d, b * e, c * f⟩ := rfl

@[simp] theorem vec3.mk_smul (a b c f : ℝ) :
    (⟨a, b, c⟩ : vec3).smul f = ⟨a * f, b * f, c * f⟩ := rfl

@[simp] theorem vec3.dot_mk (a b c d e f : ℝ) :
    vec3.dot ⟨a, b, c⟩ ⟨d, e, f⟩ = a * d + b * e + c * f := rfl

theorem vec3.splat_def (n : ℝ) : vec3.splat n = ⟨n, n, n⟩ := rfl

/-- Magnitude of a vector on the principal axis. -/
theorem magnitude_axis {c : ℝ} (hc : 0 ≤ c) : (⟨0, 0, c⟩ : vec3).magnitude = c :=
  magnitude_eval hc (by ring)

/-- Normalizing a vector on the positive principal axis yields the unit
axis vector. -/
theorem normalize_axis {c : ℝ} (hc : 0 < c) : (⟨0, 0, c⟩ : vec3).normalize = ⟨0, 0, 1⟩ := by
  rw [normalize_eval (magnitude_axis (le_of_lt hc))]
  ext <;> simp
  exact div_self (ne_of_gt hc)

/-! ### Axis-aligned intersection evaluations -/

/-- A sphere centered on the principal axis, met by an axis ray whose
center projects ahead, is hit at distance-minus-radius and
distance-plus-radius. -/
theorem intersect_axis (cz oz dz r : ℝ) (col : vec3) (m : Material) (hr : 0 ≤ r)
    (hdz : dz * dz = 1) (h : 0 ≤ (cz - oz) * dz) :
    (Sphere.mk ⟨0, 0, cz⟩ r col m).intersect ⟨⟨0, 0, oz⟩, ⟨0, 0, dz⟩⟩ =
      some ((cz - oz) * dz - r, (cz - oz) * dz + r) := by
  have h1 : vec3.dot ((Sphere.mk ⟨0, 0, cz⟩ r col m).center - (Ray.mk ⟨0, 0, oz⟩ ⟨0, 0, dz⟩).orig)
      (Ray.mk ⟨0, 0, oz⟩ ⟨0, 0, dz⟩).dir = (cz - oz) * dz := by
    simp
  have h2 : vec3.dot ((Sphere.mk ⟨0, 0, cz⟩ r col m).center - (Ray.mk ⟨0, 0, oz⟩ ⟨0, 0, dz⟩).orig)
      ((Sphere.mk ⟨0, 0, cz⟩ r col m).center - (Ray.mk ⟨0, 0, oz⟩ ⟨0, 0, dz⟩).orig) =
      (cz - oz) * (cz - oz) := by
    simp
  have hd2 : vec3.dot ((Sphere.mk ⟨0, 0, cz⟩ r col m).center - (Ray.mk ⟨0, 0, oz⟩ ⟨0, 0, dz⟩).orig)
        ((Sphere.mk ⟨0, 0, cz⟩ r col m).center - (Ray.mk ⟨0, 0, oz⟩ ⟨0, 0, dz⟩).orig) -
      vec3.dot ((Sphere.mk ⟨0, 0, cz⟩ r col m).center - (Ray.mk ⟨0, 0, oz⟩ ⟨0, 0, dz⟩).orig)
          (Ray.mk ⟨0, 0, oz⟩ ⟨0, 0, dz⟩).dir *
        vec3.dot ((Sphere.mk ⟨0, 0, cz⟩ r col m).center - (Ray.mk ⟨0, 0, oz⟩ ⟨0, 0, dz⟩).orig)
          (Ray.mk ⟨0, 0, oz⟩ ⟨0, 0, dz⟩).dir = 0 := by
    rw [h1, h2]
    nlinarith [hdz]
  rw [Sphere.intersect_of_hit (h1 ▸ h) (by rw [hd2]; positivity)]
  rw [hd2, h1]
  have hs : Real.sqrt ((Sphere.mk ⟨0, 0, cz⟩ r col m).radius *
      (Sphere.mk ⟨0, 0, cz⟩ r col m).radius - 0) = r := by
    apply sqrt_eval hr
    simp
  rw [hs]

/-- A sphere centered on the principal axis whose center projects
behind an axis ray is rejected. -/
theorem intersect_axis_behind (cz oz dz r : ℝ) (col : vec3) (m : Material)
    (h : (cz - oz) * dz < 0) :
    (Sphere.mk ⟨0, 0, cz⟩ r col m).intersect ⟨⟨0, 0, oz⟩, ⟨0, 0, dz⟩⟩ = none := by
  apply Sphere.intersect_of_behind
  simpa using h

/-! ### Concrete scene evaluations -/

theorem ev_front_intersect (col : vec3) (m : Material) :
    (Sphere.mk ⟨0, 0, -5⟩ 1 col m).intersect cray = some (4, 6) := by
  rw [show cray = Ray.mk ⟨0, 0, 0⟩ ⟨0, 0, -1⟩ from rfl]
  rw [intersect_axis (-5) 0 (-1) 1 col m (by norm_num) (by norm_num) (by norm_num)]
  norm_num

theorem ev_far_intersect : farSphere.intersect cray = some (1999999, 2000001) := by
  rw [show farSphere = Sphere.mk ⟨0, 0, -2000000⟩ 1 ⟨1, 1, 1⟩ Material.Diffuse from rfl]
  rw [show cray = Ray.mk ⟨0, 0, 0⟩ ⟨0, 0, -1⟩ from rfl]
  rw [intersect_axis (-2000000) 0 (-1) 1 ⟨1, 1, 1⟩ Material.Diffuse (by norm_num) (by norm_num)
    (by norm_num)]
  norm_num

theorem ev_blocker_primary : blocker.intersect cray = none := by
  rw [show blocker = Sphere.mk ⟨0, 0, 10⟩ 1 ⟨1, 1, 1⟩ Material.Diffuse from rfl]
  rw [show cray = Ray.mk ⟨0, 0, 0⟩ ⟨0, 0, -1⟩ from rfl]
  exact intersect_axis_behind 10 0 (-1) 1 ⟨1, 1, 1⟩ Material.Diffuse (by norm_num)

theorem ev_farBlocker_primary : farBlocker.intersect cray = none := by
  rw [show farBlocker = Sphere.mk ⟨0, 0, 100⟩ 1 ⟨1, 1, 1⟩ Material.Diffuse from rfl]
  rw [show cray = Ray.mk ⟨0, 0, 0⟩ ⟨0, 0, -1⟩ from rfl]
  exact intersect_axis_behind 100 0 (-1) 1 ⟨1, 1, 1⟩ Material.Diffuse (by norm_num)

theorem ev_shadow_self (col : vec3) (m : Material) :
    (Sphere.mk ⟨0, 0, -5⟩ 1 col m).intersect ⟨⟨0, 0, -3⟩, ⟨0, 0, 1⟩⟩ = none :=
  intersect_axis_behind (-5) (-3) 1 1 col m (by norm_num)

theorem ev_shadow_blocker : blocker.intersect ⟨⟨0, 0, -3⟩, ⟨0, 0, 1⟩⟩ = some (12, 14) := by
  rw [show blocker = Sphere.mk ⟨0, 0, 10⟩ 1 ⟨1, 1, 1⟩ Material.Diffuse from rfl]
  rw [intersect_axis 10 (-3) 1 1 ⟨1, 1, 1⟩ Material.Diffuse (by norm_num) (by norm_num)
    (by norm_num)]
  norm_num

theorem ev_shadow_farBlocker : farBlocker.intersect ⟨⟨0, 0, -3⟩, ⟨0, 0, 1⟩⟩ = some (102, 104) := by
  rw [show farBlocker = Sphere.mk ⟨0, 0, 100⟩ 1 ⟨1, 1, 1⟩ Material.Diffuse from rfl]
  rw [intersect_axis 100 (-3) 1 1 ⟨1, 1, 1⟩ Material.Diffuse (by norm_num) (by norm_num)
    (by norm_num)]
  norm_num

theorem ev_surv_front (col : vec3) (m : Material) :
    surv cray (Sphere.mk ⟨0, 0, -5⟩ 1 col m) = some 4 := by
  rw [surv_of_some (ev_front_intersect col m)]
  norm_num

theorem ev_surv_far : surv cray farSphere = some 1999999 := by
  rw [surv_of_some ev_far_intersect]
  norm_num

theorem ev_scan_front (col : vec3) (m : Material) :
    scanSpheres cray [Sphere.mk ⟨0, 0, -5⟩ 1 col m] = (4, some (Sphere.mk ⟨0, 0, -5⟩ 1 col m)) := by
  unfold scanSpheres
  rw [resolveAux_cons_lt [] none (ev_surv_front col m) (by norm_num [INF])]
  rfl

theorem ev_scan_far : scanSpheres cray [farSphere] = (INF, none) := by
  unfold scanSpheres
  rw [resolveAux_cons_ge [] none ev_surv_far (by norm_num [INF])]
  rfl

theorem ev_scan_front_blocker : scanSpheres cray [oneSphere, blocker] = (4, some oneSphere) := by
  unfold scanSpheres
  have h1 : surv cray oneSphere = some 4 := ev_surv_front _ _
  rw [resolveAux_cons_lt [blocker] none h1 (by norm_num [INF])]
  rw [resolveAux_cons_none [] 4 (some oneSphere) (surv_of_none ev_blocker_primary)]
  rfl

theorem ev_scan_front_farBlocker :
    scanSpheres cray [oneSphere, farBlocker] = (4, some oneSphere) := by
  unfold scanSpheres
  have h1 : surv cray oneSphere = some 4 := ev_surv_front _ _
  rw [resolveAux_cons_lt [farBlocker] none h1 (by norm_num [INF])]
  rw [resolveAux_cons_none [] 4 (some oneSphere) (surv_of_none ev_farBlocker_primary)]
  rfl

theorem ev_hitPoint : hitPoint cray 4 = ⟨0, 0, -4⟩ := by
  unfold hitPoint
  rw [show cray = Ray.mk ⟨0, 0, 0⟩ ⟨0, 0, -1⟩ from rfl]
  norm_num

theorem ev_hitNormal (col : vec3) (m : Material) :
    hitNormal cray (Sphere.mk ⟨0, 0, -5⟩ 1 col m) 4 = ⟨0, 0, 1⟩ := by
  have hsub : hitPoint cray 4 - (Sphere.mk ⟨0, 0, -5⟩ 1 col m).center = ⟨0, 0, 1⟩ := by
    rw [ev_hitPoint]
    norm_num
  simp only [hitNormal]
  rw [hsub, normalize_axis one_pos]
  rw [if_neg (by rw [show cray = Ray.mk ⟨0, 0, 0⟩ ⟨0, 0, -1⟩ from rfl]; norm_num)]

/-- The shadow ray of the concrete front-sphere hit toward light50. -/
theorem ev_shadowRay50 :
    (⟨hitPoint cray 4 + hitNormal cray oneSphere 4,
      vec3.normalize (light50.position - hitPoint cray 4)⟩ : Ray) =
    ⟨⟨0, 0, -3⟩, ⟨0, 0, 1⟩⟩ := by
  have hhp : hitPoint cray 4 = ⟨0, 0, -4⟩ := ev_hitPoint
  have hhn : hitNormal cray oneSphere 4 = ⟨0, 0, 1⟩ := ev_hitNormal _ _
  have hn54 : (⟨0, 0, (54 : ℝ)⟩ : vec3).normalize = ⟨0, 0, 1⟩ := normalize_axis (by norm_num)
  rw [hhp, hhn, show light50.position = (⟨0, 0, 50⟩ : vec3) from rfl]
  rw [Ray.mk.injEq]
  constructor
  · norm_num
  · norm_num [hn54]

/-- The per-light term of the concrete unoccluded front-sphere hit with
the doubled-intensity light evaluates without the intensity factor. -/
theorem ev_term_light2x :
    lightTerm [oneSphere] oneSphere (hitPoint cray 4) (hitNormal cray oneSphere 4) light2x =
      ⟨1, 1/2, 1/4⟩ := by
  have hn4 : (⟨0, 0, (4 : ℝ)⟩ : vec3).normalize = ⟨0, 0, 1⟩ := normalize_axis (by norm_num)
  have hhp : hitPoint cray 4 = ⟨0, 0, -4⟩ := ev_hitPoint
  have hhn : hitNormal cray oneSphere 4 = ⟨0, 0, 1⟩ := ev_hitNormal _ _
  rw [hhp, hhn]
  simp only [lightTerm]
  have hld : vec3.normalize (light2x.position - (⟨0, 0, -4⟩ : vec3)) = ⟨0, 0, 1⟩ := by
    rw [show light2x.position = (⟨0, 0, 0⟩ : vec3) from rfl]
    norm_num [hn4]
  rw [hld, show (⟨0, 0, -4⟩ : vec3) + (⟨0, 0, 1⟩ : vec3) = ⟨0, 0, -3⟩ by norm_num]
  have hany : ([oneSphere].any fun sj =>
      (sj.intersect ⟨⟨0, 0, -3⟩, ⟨0, 0, 1⟩⟩).isSome) = false := by
    simp [show oneSphere.intersect (⟨⟨0, 0, -3⟩, ⟨0, 0, 1⟩⟩ : Ray) = none from
      ev_shadow_self _ _]
  rw [if_neg (by simp [hany])]
  have hmax : max (0 : ℝ) 1 = 1 := max_eq_right (by norm_num)
  norm_num [oneSphere, light2x, vec3.splat_def, hmax]

/-- The spec-side contribution formula at the same concrete input
includes the doubled intensity. -/
theorem ev_specContribution_light2x :
    specLightContribution oneSphere.color (hitNormal cray oneSphere 4)
      (vec3.normalize (light2x.position - hitPoint cray 4)) light2x = ⟨2, 1, 1/2⟩ := by
  have hn4 : (⟨0, 0, (4 : ℝ)⟩ : vec3).normalize = ⟨0, 0, 1⟩ := normalize_axis (by norm_num)
  have hhp : hitPoint cray 4 = ⟨0, 0, -4⟩ := ev_hitPoint
  have hhn : hitNormal cray oneSphere 4 = ⟨0, 0, 1⟩ := ev_hitNormal _ _
  rw [hhp, hhn]
  have hld : vec3.normalize (light2x.position - (⟨0, 0, -4⟩ : vec3)) = ⟨0, 0, 1⟩ := by
    rw [show light2x.position = (⟨0, 0, 0⟩ : vec3) from rfl]
    norm_num [hn4]
  rw [hld]
  have hmax : max (0 : ℝ) 1 = 1 := max_eq_right (by norm_num)
  norm_num [specLightContribution, oneSphere, light2x, hmax]

/-- Changing only the intensity fields of the lights leaves the traced
color unchanged: trace never reads the intensity field. -/
theorem trace_intensity (ray : Ray) (spheres : List Sphere) (lights : List Light) (bg : vec3)
    (d : ℤ) (f : Light → ℝ) :
    trace ray spheres (lights.map fun l => Light.mk l.position l.color (f l)) bg d =
      trace ray spheres lights bg d := by
  rcases hsc : scanSpheres ray spheres with ⟨t, sph⟩
  rcases sph with _ | sphere
  · rw [trace_of_none _ bg d hsc, trace_of_none _ bg d hsc]
  · by_cases hm : sphere.material = Material.Diffuse
    · rw [trace_of_diffuse _ bg d hsc hm, trace_of_diffuse _ bg d hsc hm]
      rw [List.map_map]
      have hfun : (lightTerm spheres sphere (hitPoint ray t) (hitNormal ray sphere t)) ∘
          (fun l => Light.mk l.position l.color (f l)) =
          lightTerm spheres sphere (hitPoint ray t) (hitNormal ray sphere t) :=
        funext fun l => rfl
      rw [hfun]
    · rw [trace_of_other _ bg d hsc hm, trace_of_other _ bg d hsc hm]

/-! ### Claim theorems -/

/-- Claim C1, counterexample: at a concrete unoccluded diffuse hit with
a light of intensity 2, the traced pixel color carries no intensity
factor, while the claimed formula albedo * max(0,N.L) * light.color *
light.intensity doubles it; the two disagree. -/
theorem claim_C1_counterexample :
    trace cray [oneSphere] [light2x] (vec3.splat 0) 0 = ⟨1, 1/2, 1/4⟩ ∧
    specLightContribution oneSphere.color (hitNormal cray oneSphere 4)
      (vec3.normalize (light2x.position - hitPoint cray 4)) light2x = ⟨2, 1, 1/2⟩ ∧
    trace cray [oneSphere] [light2x] (vec3.splat 0) 0 ≠
      specLightContribution oneSphere.color (hitNormal cray oneSphere 4)
        (vec3.normalize (light2x.position - hitPoint cray 4)) light2x := by
  have hscan : scanSpheres cray [oneSphere] = (4, some oneSphere) := ev_scan_front _ _
  have htr : trace cray [oneSphere] [light2x] (vec3.splat 0) 0 = ⟨1, 1/2, 1/4⟩ := by
    rw [trace_of_diffuse [light2x] (vec3.splat 0) 0 hscan rfl]
    simp [ev_term_light2x]
  refine ⟨htr, ev_specContribution_light2x, ?_⟩
  rw [htr, ev_specContribution_light2x]
  simp only [vec3.mk.injEq, ne_eq]
  norm_num

/-- Claim C1 (amended): for every diffuse hit the pixel color is the
sum over all lights of the per-light terms; each unoccluded term equals
albedo * max(0, N.L) * light.color with no intensity factor, and the
intensity field of every light can be changed arbitrarily without
changing the traced color. -/
theorem claim_C1_amended (ray : Ray) (spheres : List Sphere) (lights : List Light)
    (bg : vec3) (d : ℤ) (t : ℝ) (sphere : Sphere)
    (h : scanSpheres ray spheres = (t, some sphere)) (hm : sphere.material = Material.Diffuse) :
    trace ray spheres lights bg d =
      (lights.map (lightTerm spheres sphere (hitPoint ray t) (hitNormal ray sphere t))).sum ∧
    (∀ light : Light,
      (¬ ∃ sj ∈ spheres, (sj.intersect
          ⟨hitPoint ray t + hitNormal ray sphere t,
            vec3.normalize (light.position - hitPoint ray t)⟩).isSome = true) →
      lightTerm spheres sphere (hitPoint ray t) (hitNormal ray sphere t) light =
        (sphere.color.smul (max 0 (vec3.dot (hitNormal ray sphere t)
          (vec3.normalize (light.position - hitPoint ray t))))) * light.color) ∧
    (∀ f : Light → ℝ,
      trace ray spheres (lights.map fun l => Light.mk l.position l.color (f l)) bg d =
        trace ray spheres lights bg d) :=
  ⟨trace_of_diffuse lights bg d h hm,
   fun _ hno => lightTerm_unoccluded hno,
   fun f => trace_intensity ray spheres lights bg d f⟩

/-- Claim C1, witness: the amended theorem applied to the concrete
front-sphere scene with one light. -/
theorem claim_C1_witness :
    trace cray [oneSphere] [light0] bg7 0 =
      ([light0].map (lightTerm [oneSphere] oneSphere
        (hitPoint cray 4) (hitNormal cray oneSphere 4))).sum ∧
    trace cray [oneSphere] ([light0].map fun l => Light.mk l.position l.color 2) bg7 0 =
      trace cray [oneSphere] [light0] bg7 0 := by
  have hscan : scanSpheres cray [oneSphere] = (4, some oneSphere) := ev_scan_front _ _
  have h := claim_C1_amended cray [oneSphere] [light0] bg7 0 4 oneSphere hscan rfl
  exact ⟨h.1, h.2.2 (fun _ => 2)⟩

/-- Claim C2 (confirmed): the intersector rejects when the center
projects behind the origin, rejects when the squared closest-approach
distance exceeds the squared radius, and otherwise returns exactly the
pair of quadratic roots, the first at most the second. -/
theorem claim_C2_intersect (s : Sphere) (ray : Ray) :
    (vec3.dot (s.center - ray.orig) ray.dir < 0 → s.intersect ray = none) ∧
    (s.radius * s.radius <
        vec3.dot (s.center - ray.orig) (s.center - ray.orig) -
          vec3.dot (s.center - ray.orig) ray.dir * vec3.dot (s.center - ray.orig) ray.dir →
      s.intersect ray = none) ∧
    (0 ≤ vec3.dot (s.center - ray.orig) ray.dir →
      vec3.dot (s.center - ray.orig) (s.center - ray.orig) -
          vec3.dot (s.center - ray.orig) ray.dir * vec3.dot (s.center - ray.orig) ray.dir ≤
        s.radius * s.radius →
      s.intersect ray =
        some (vec3.dot (s.center - ray.orig) ray.dir -
                Real.sqrt (s.radius * s.radius -
                  (vec3.dot (s.center - ray.orig) (s.center - ray.orig) -
                    vec3.dot (s.center - ray.orig) ray.dir *
                      vec3.dot (s.center - ray.orig) ray.dir)),
              vec3.dot (s.center - ray.orig) ray.dir +
                Real.sqrt (s.radius * s.radius -
                  (vec3.dot (s.center - ray.orig) (s.center - ray.orig) -
                    vec3.dot (s.center - ray.orig) ray.dir *
                      vec3.dot (s.center - ray.orig) ray.dir))) ∧
      vec3.dot (s.center - ray.orig) ray.dir -
          Real.sqrt (s.radius * s.radius -
            (vec3.dot (s.center - ray.orig) (s.center - ray.orig) -
              vec3.dot (s.center - ray.orig) ray.dir *
                vec3.dot (s.center - ray.orig) ray.dir)) ≤
        vec3.dot (s.center - ray.orig) ray.dir +
          Real.sqrt (s.radius * s.radius -
            (vec3.dot (s.center - ray.orig) (s.center - ray.orig) -
              vec3.dot (s.center - ray.orig) ray.dir *
                vec3.dot (s.center - ray.orig) ray.dir))) :=
  ⟨Sphere.intersect_of_behind, Sphere.intersect_of_far, fun h1 h2 =>
    ⟨Sphere.intersect_of_hit h1 h2, by
      have hnn := Real.sqrt_nonneg (s.radius * s.radius -
        (vec3.dot (s.center - ray.orig) (s.center - ray.orig) -
          vec3.dot (s.center - ray.orig) ray.dir * vec3.dot (s.center - ray.orig) ray.dir))
      linarith⟩⟩

/-- Claim C2, witness: the hit branch of the intersector at the
concrete front sphere, where the roots evaluate to 4 and 6. -/
theorem claim_C2_witness :
    oneSphere.intersect cray = some (4, 6) ∧ (4 : ℝ) ≤ 6 := by
  have h1 : 0 ≤ vec3.dot (oneSphere.center - cray.orig) cray.dir := by
    norm_num [oneSphere, cray, vec3.splat_def]
  have h2 : vec3.dot (oneSphere.center - cray.orig) (oneSphere.center - cray.orig) -
      vec3.dot (oneSphere.center - cray.orig) cray.dir *
        vec3.dot (oneSphere.center - cray.orig) cray.dir ≤
      oneSphere.radius * oneSphere.radius := by
    norm_num [oneSphere, cray, vec3.splat_def]
  obtain ⟨hsome, hle⟩ := (claim_C2_intersect oneSphere cray).2.2 h1 h2
  have hev : oneSphere.intersect cray = some (4, 6) := ev_front_intersect _ _
  have hpair := hsome ▸ hev
  rw [Option.some_inj, Prod.mk.injEq] at hpair
  exact ⟨hev, hpair.1 ▸ hpair.2 ▸ hle⟩

/-- Claim C4 (confirmed): at a diffuse hit, when any sphere of the
scene intersects the shadow ray cast from the hit point offset by the
surface normal toward the light, that light's per-light term is exactly
the zero vector, and the traced pixel color is the sum of the per-light
terms. -/
theorem claim_C4_shadow (ray : Ray) (spheres : List Sphere) (lights : List Light)
    (bg : vec3) (d : ℤ) (t : ℝ) (sphere : Sphere)
    (h : scanSpheres ray spheres = (t, some sphere)) (hm : sphere.material = Material.Diffuse)
    (light : Light)
    (hocc : ∃ sj ∈ spheres, (sj.intersect
        ⟨hitPoint ray t + hitNormal ray sphere t,
          vec3.normalize (light.position - hitPoint ray t)⟩).isSome = true) :
    lightTerm spheres sphere (hitPoint ray t) (hitNormal ray sphere t) light = vec3.splat 0 ∧
    trace ray spheres lights bg d =
      (lights.map (lightTerm spheres sphere (hitPoint ray t) (hitNormal ray sphere t))).sum :=
  ⟨lightTerm_occluded hocc, trace_of_diffuse lights bg d h hm⟩

/-- Claim C4, witness: the blocker sphere occludes light50 for the
concrete front-sphere hit, and the contribution is zero. -/
theorem claim_C4_witness :
    lightTerm [oneSphere, blocker] oneSphere (hitPoint cray 4) (hitNormal cray oneSphere 4)
      light50 = vec3.splat 0 := by
  have hocc : ∃ sj ∈ [oneSphere, blocker], (sj.intersect
      ⟨hitPoint cray 4 + hitNormal cray oneSphere 4,
        vec3.normalize (light50.position - hitPoint cray 4)⟩).isSome = true := by
    refine ⟨blocker, by simp, ?_⟩
    rw [ev_shadowRay50, ev_shadow_blocker]
    rfl
  exact (claim_C4_shadow cray [oneSphere, blocker] [light50] bg7 0 4 oneSphere
    ev_scan_front_blocker rfl light50 hocc).1

/-- Claim C7 (confirmed): when the winning sphere has any material tag
other than Diffuse, trace returns the zero color; the model is a total
function, so no error is raised. -/
theorem claim_C7_material (ray : Ray) (spheres : List Sphere) (lights : List Light)
    (bg : vec3) (d : ℤ) (t : ℝ) (sphere : Sphere)
    (h : scanSpheres ray spheres = (t, some sphere))
    (hm : sphere.material ≠ Material.Diffuse) :
    trace ray spheres lights bg d = vec3.splat 0 :=
  trace_of_other lights bg d h hm

/-- Claim C7, witness: a Specular sphere traces to black. -/
theorem claim_C7_witness :
    trace cray [specSphere] [light0] bg7 0 = vec3.splat 0 := by
  have hscan : scanSpheres cray [specSphere] = (4, some specSphere) := ev_scan_front _ _
  exact claim_C7_material cray [specSphere] [light0] bg7 0 4 specSphere hscan
    (by simp [specSphere])

/-- Claim C8 (confirmed): the depth argument of trace is never
consulted, so any two depth values give the same color. -/
theorem claim_C8_depth (ray : Ray) (spheres : List Sphere) (lights : List Light)
    (bg : vec3) (d1 d2 : ℤ) :
    trace ray spheres lights bg d1 = trace ray spheres lights bg d2 := rfl

/-- Claim C9 (confirmed): the shadow test never compares the
intersection distance with the distance to the light; a sphere whose
shadow-ray intersection lies entirely beyond the light still forces the
per-light term to zero. -/
theorem claim_C9_beyond (spheres : List Sphere) (sphere : Sphere)
    (pointHit normalHit : vec3) (light : Light) (sj : Sphere) (hmem : sj ∈ spheres)
    (t0 t1 : ℝ)
    (hint : sj.intersect
      ⟨pointHit + normalHit, vec3.normalize (light.position - pointHit)⟩ = some (t0, t1))
    (hbeyond : (light.position - (pointHit + normalHit)).magnitude < t0) :
    lightTerm spheres sphere pointHit normalHit light = vec3.splat 0 :=
  lightTerm_occluded ⟨sj, hmem, by rw [hint]; rfl⟩

/-- Claim C9, witness: the far blocker lies entirely beyond light50
(entry root 102 against light distance 53), yet the light's term is
zero. -/
theorem claim_C9_witness :
    lightTerm [oneSphere, farBlocker] oneSphere (hitPoint cray 4) (hitNormal cray oneSphere 4)
      light50 = vec3.splat 0 := by
  have hint : farBlocker.intersect
      ⟨hitPoint cray 4 + hitNormal cray oneSphere 4,
        vec3.normalize (light50.position - hitPoint cray 4)⟩ = some (102, 104) := by
    rw [ev_shadowRay50]
    exact ev_shadow_farBlocker
  have hbeyond : (light50.position -
      (hitPoint cray 4 + hitNormal cray oneSphere 4)).magnitude < 102 := by
    have hsub : light50.position - (hitPoint cray 4 + hitNormal cray oneSphere 4) =
        ⟨0, 0, 53⟩ := by
      rw [show hitPoint cray 4 = (⟨0, 0, -4⟩ : vec3) from ev_hitPoint,
        show hitNormal cray oneSphere 4 = (⟨0, 0, 1⟩ : vec3) from ev_hitNormal _ _,
        show light50.position = (⟨0, 0, 50⟩ : vec3) from rfl]
      norm_num
    rw [hsub, magnitude_axis (by norm_num)]
    norm_num
  exact claim_C9_beyond [oneSphere, farBlocker] oneSphere (hitPoint cray 4)
    (hitNormal cray oneSphere 4) light50 farBlocker (by simp) 102 104 hint hbeyond

/-- The scan loop preserves nonnegativity of the accumulated distance
once a sphere has been recorded, because every surviving parameter is
nonnegative. -/
theorem resolveAux_nonneg (ray : Ray) : ∀ (l : List Sphere) (tnear : ℝ) (sph : Option Sphere),
    (sph.isSome → 0 ≤ tnear) → ∀ (t : ℝ) (w : Sphere),
      resolveAux ray l tnear sph = (t, some w) → 0 ≤ t := by
  intro l
  induction l with
  | nil =>
    intro tnear sph hinv t w h
    rw [resolveAux_nil, Prod.mk.injEq] at h
    exact h.1 ▸ hinv (by rw [h.2]; rfl)
  | cons s rest ih =>
    intro tnear sph hinv t w h
    rcases hs : surv ray s with _ | tn
    · rw [resolveAux_cons_none rest tnear sph hs] at h
      exact ih tnear sph hinv t w h
    · by_cases hc : tn < tnear
      · rw [resolveAux_cons_lt rest sph hs hc] at h
        exact ih tn (some s) (fun _ => surv_nonneg hs) t w h
      · rw [resolveAux_cons_ge rest sph hs hc] at h
        exact ih tnear sph hinv t w h

/-- Claim C10 (confirmed): whenever the intersector reports a hit, the
far root is nonnegative, and whenever the scene scan selects a winning
sphere, the winning distance is nonnegative, so a resolved hit point
never lies behind the ray origin. -/
theorem claim_C10_nonneg :
    (∀ (s : Sphere) (ray : Ray) (t0 t1 : ℝ), s.intersect ray = some (t0, t1) → 0 ≤ t1) ∧
    (∀ (ray : Ray) (spheres : List Sphere) (t : ℝ) (w : Sphere),
      scanSpheres ray spheres = (t, some w) → 0 ≤ t) :=
  ⟨fun _ _ _ _ h => (Sphere.intersect_some h).2.2,
   fun ray spheres t w h =>
    resolveAux_nonneg ray spheres INF none (fun hcontra => absurd hcontra (by simp)) t w h⟩

/-- Claim C10, witness: both parts at the concrete front sphere. -/
theorem claim_C10_witness :
    oneSphere.intersect cray = some (4, 6) ∧ (0 : ℝ) ≤ 6 ∧
    scanSpheres cray [oneSphere] = (4, some oneSphere) ∧ (0 : ℝ) ≤ 4 := by
  have hev : oneSphere.intersect cray = some (4, 6) := ev_front_intersect _ _
  have hscan : scanSpheres cray [oneSphere] = (4, some oneSphere) := ev_scan_front _ _
  exact ⟨hev, claim_C10_nonneg.1 oneSphere cray 4 6 hev, hscan,
    claim_C10_nonneg.2 cray [oneSphere] 4 oneSphere hscan⟩

/-- Claim C3, counterexample: a sphere two million units ahead yields a
hit with surviving parameter 1999999, yet the scan, whose initial
nearest distance is the INF sentinel of one million, selects no sphere
and trace returns the background. -/
theorem claim_C3_counterexample :
    farSphere.intersect cray = some (1999999, 2000001) ∧
    surv cray farSphere = some 1999999 ∧
    scanSpheres cray [farSphere] = (INF, none) ∧
    trace cray [farSphere] [light0] bg7 0 = bg7 :=
  ⟨ev_far_intersect, ev_surv_far, ev_scan_far, trace_of_none [light0] bg7 0 ev_scan_far⟩

/-- Claim C3 (amended): the scan substitutes the far root for a
negative near root, and selects the first sphere in input order
attaining the strict minimum of the surviving parameters among those
below the INF sentinel of one million; when no surviving parameter lies
below the sentinel nothing is selected and trace returns the
background. -/
theorem claim_C3_amended (ray : Ray) (spheres : List Sphere) :
    (∀ (s : Sphere) (t0 t1 : ℝ), s.intersect ray = some (t0, t1) →
        surv ray s = some (if t0 < 0 then t1 else t0)) ∧
    ((scanSpheres ray spheres).2 = none →
        (∀ (lights : List Light) (bg : vec3) (d : ℤ), trace ray spheres lights bg d = bg) ∧
        (scanSpheres ray spheres).1 = INF ∧
        (∀ (i : ℕ) (sj : Sphere) (t' : ℝ),
          spheres[i]? = some sj → surv ray sj = some t' → INF ≤ t')) ∧
    (∀ w : Sphere, (scanSpheres ray spheres).2 = some w →
        ∃ i : ℕ, spheres[i]? = some w ∧
          surv ray w = some (scanSpheres ray spheres).1 ∧
          (scanSpheres ray spheres).1 < INF ∧
          ∀ (j : ℕ) (sj : Sphere) (t' : ℝ),
            spheres[j]? = some sj → surv ray sj = some t' →
              (scanSpheres ray spheres).1 ≤ t' ∧
                (j < i → (scanSpheres ray spheres).1 < t')) := by
  refine ⟨fun s t0 t1 h => surv_of_some h, ?_, ?_⟩
  · intro hn
    rcases resolveAux_spec ray spheres INF none with ⟨heq, hbound⟩ |
      ⟨i, w, hiw, hsome, hsv, hlt, hall⟩
    · have hsc : scanSpheres ray spheres = (INF, none) := heq
      exact ⟨fun lights bg d => trace_of_none lights bg d hsc, by rw [hsc], hbound⟩
    · exfalso
      have hsome' : (scanSpheres ray spheres).2 = some w := hsome
      rw [hn] at hsome'
      cases hsome'
  · intro w hw
    rcases resolveAux_spec ray spheres INF none with ⟨heq, hbound⟩ |
      ⟨i, w', hiw, hsome, hsv, hlt, hall⟩
    · exfalso
      have hsc : scanSpheres ray spheres = (INF, none) := heq
      rw [hsc] at hw
      cases hw
    · have hsome' : (scanSpheres ray spheres).2 = some w' := hsome
      rw [hw] at hsome'
      have hww : w' = w := (Option.some_inj.mp hsome').symm
      subst hww
      exact ⟨i, hiw, hsv, hlt, hall⟩

/-- Claim C3, witness: the amended characterization applied to the
concrete one-sphere scene, where the front sphere is selected at
distance 4. -/
theorem claim_C3_witness :
    ∃ i : ℕ, [oneSphere][i]? = some oneSphere ∧
      surv cray oneSphere = some ((scanSpheres cray [oneSphere]).1) ∧
      (scanSpheres cray [oneSphere]).1 < INF ∧
      ∀ (j : ℕ) (sj : Sphere) (t' : ℝ),
        [oneSphere][j]? = some sj → surv cray sj = some t' →
          (scanSpheres cray [oneSphere]).1 ≤ t' ∧
            (j < i → (scanSpheres cray [oneSphere]).1 < t') := by
  have hscan : scanSpheres cray [oneSphere] = (4, some oneSphere) := ev_scan_front _ _
  exact (claim_C3_amended cray [oneSphere]).2.2 oneSphere (by rw [hscan])

/-- Claim C5, counterexample: the source encoding truncates toward zero
and has no lower clamp, so channel 3/1000 encodes to 0 where the
claimed clamp-round formula gives 1, and channel -1 encodes to -255,
outside the claimed range. -/
theorem claim_C5_counterexample :
    encodeChannel (3/1000) = 0 ∧ specEncode (3/1000) = 1 ∧
    encodeChannel (3/1000) ≠ specEncode (3/1000) ∧ encodeChannel (-1) = -255 := by
  have h1 : encodeChannel (3/1000) = 0 := by
    unfold encodeChannel truncToInt
    rw [min_eq_left (by norm_num), if_pos (by norm_num)]
    rw [show (3/1000 : ℝ) * 255 = 153/200 by norm_num]
    rw [Int.floor_eq_iff]
    norm_num
  have h2 : specEncode (3/1000) = 1 := by
    unfold specEncode
    rw [show (3/1000 : ℝ) * 255 = 153/200 by norm_num]
    rw [round_eq]
    rw [show (153/200 : ℝ) + 1/2 = 253/200 by norm_num]
    rw [show ⌊(253/200 : ℝ)⌋ = 1 by rw [Int.floor_eq_iff]; norm_num]
    norm_num
  refine ⟨h1, h2, by rw [h1, h2]; norm_num, ?_⟩
  unfold encodeChannel truncToInt
  rw [min_eq_left (by norm_num), if_neg (by norm_num)]
  rw [show (-1 : ℝ) * 255 = -255 by norm_num]
  rw [show (-255 : ℝ) = ((-255 : ℤ) : ℝ) by norm_num, Int.ceil_intCast]

/-- Claim C5 (amended): the encoder maps any channel at least 1 to 255,
maps 0 to 0, and on nonnegative channels equals the floor of the scaled
value clamped above at 255, staying within the range 0 to 255; there is
no rounding and no lower clamp. -/
theorem claim_C5_amended :
    (∀ c : ℝ, 1 ≤ c → encodeChannel c = 255) ∧
    encodeChannel 0 = 0 ∧
    (∀ c : ℝ, 0 ≤ c →
      0 ≤ encodeChannel c ∧ encodeChannel c ≤ 255 ∧
        encodeChannel c = min ⌊c * 255⌋ 255) := by
  refine ⟨?_, ?_, ?_⟩
  · intro c hc
    unfold encodeChannel truncToInt
    rw [min_eq_right (by nlinarith), if_pos (by norm_num)]
    norm_num
  · unfold encodeChannel truncToInt
    rw [min_eq_left (by norm_num), if_pos (by norm_num)]
    norm_num
  · intro c hc
    have hmin0 : 0 ≤ min (c * 255) 255 := le_min (by positivity) (by norm_num)
    have htr : encodeChannel c = ⌊min (c * 255) 255⌋ := by
      unfold encodeChannel truncToInt
      rw [if_pos hmin0]
    have hf255 : ⌊(255 : ℝ)⌋ = 255 := by norm_num
    have hfloor : ⌊min (c * 255) 255⌋ = min ⌊c * 255⌋ 255 := by
      rcases le_total (c * 255) 255 with hle | hle
      · rw [min_eq_left hle, min_eq_left]
        calc ⌊c * 255⌋ ≤ ⌊(255 : ℝ)⌋ := Int.floor_mono hle
          _ = 255 := hf255
      · rw [min_eq_right hle, min_eq_right, hf255]
        calc (255 : ℤ) = ⌊(255 : ℝ)⌋ := hf255.symm
          _ ≤ ⌊c * 255⌋ := Int.floor_mono hle
    refine ⟨?_, ?_, htr.trans hfloor⟩
    · rw [htr]
      exact Int.floor_nonneg.mpr hmin0
    · rw [htr]
      calc ⌊min (c * 255) 255⌋ ≤ ⌊(255 : ℝ)⌋ := Int.floor_mono (min_le_right _ _)
        _ = 255 := hf255

/-- Claim C5, witness: the amended encoder facts at channels 2 and
one half. -/
theorem claim_C5_witness :
    encodeChannel 2 = 255 ∧ (0 ≤ encodeChannel (1/2) ∧ encodeChannel (1/2) ≤ 255 ∧
      encodeChannel (1/2) = min ⌊(1/2 : ℝ) * 255⌋ 255) :=
  ⟨claim_C5_amended.1 2 (by norm_num), claim_C5_amended.2.2 (1/2) (by norm_num)⟩

/-- Claim C6 (code bug): the zero vector has magnitude zero, yet the
source normalization simply divides by it with no error path, returning
a value (NaN components in the C++ floats, zero in this real-number
model), while the checked normalization demanded by the specification
reports DegenerateGeometry. -/
theorem claim_C6_normalize_bug :
    vec3.magnitude ⟨0, 0, 0⟩ = 0 ∧
    vec3.normalize ⟨0, 0, 0⟩ = ⟨0, 0, 0⟩ ∧
    normalizeChecked ⟨0, 0, 0⟩ = Except.error GeomError.DegenerateGeometry := by
  have hmag : vec3.magnitude ⟨0, 0, 0⟩ = 0 := magnitude_eval le_rfl (by norm_num)
  refine ⟨hmag, ?_, ?_⟩
  · rw [normalize_eval hmag]
    norm_num
  · unfold normalizeChecked
    rw [if_pos hmag]
